import Mathlib

/-!
Verification of the output-normalization and step-validation helpers of an
acceptance-test harness (features/src/process_output.py and
features/steps/notification_service.py).

Strings are modelled as `List Char`; byte payloads and Unicode scalar values
as `List Nat`.  Assertions that abort a step are modelled by `Option`/`Except`
results.
-/

/-- The fixed diagnostic line, `COVERAGE_MESSAGE` in process_output.py. -/
def COVERAGE_MESSAGE : List Char :=
  ("warning: GOCOVERDIR not set, no coverage data emitted").data

/-- The pattern actually removed by filter_coverage_message:
the marker line followed by a line terminator, COVERAGE_MESSAGE + "\n". -/
def covPattern : List Char := COVERAGE_MESSAGE ++ [ '\n' ]

theorem covPattern_length_pos : 0 < covPattern.length := by decide

/-- Recursion worker for filter_coverage_message.  The fuel argument only
makes the recursion structural (it is always called with fuel at least the
length of the list, so the fuel-exhausted branch is never taken): at each
position, if the pattern starts here it is skipped, otherwise the character
is kept and scanning continues one character further. -/
def filterCovAux : Nat → List Char → List Char
  | _, [] => []
  | 0, rest => rest
  | fuel + 1, c :: rest =>
    if covPattern <+: (c :: rest) then
      filterCovAux fuel ((c :: rest).drop covPattern.length)
    else
      c :: filterCovAux fuel rest

/-- Embedding of filter_coverage_message (process_output.py lines 63-65):
output.replace(COVERAGE_MESSAGE + "\n", "").  Python str.replace scans the
input left to right, removing each non-overlapping occurrence of the pattern
and never rescanning text it has already emitted; that scan is exactly the
recursion of filterCovAux, run with enough fuel. -/
def filter_coverage_message (output : List Char) : List Char :=
  filterCovAux output.length output

/-- The fuel argument of filterCovAux is irrelevant as long as it is at
least the length of the input. -/
theorem filterCovAux_fuel_eq :
    ∀ fuel₁ fuel₂ s, s.length ≤ fuel₁ → s.length ≤ fuel₂ →
      filterCovAux fuel₁ s = filterCovAux fuel₂ s := by
  intro fuel₁
  induction fuel₁ with
  | zero =>
    intro fuel₂ s h1 _
    have : s = [] := List.eq_nil_of_length_eq_zero (Nat.le_zero.mp h1)
    subst this
    cases fuel₂ <;> rfl
  | succ f ih =>
    intro fuel₂ s h1 h2
    cases s with
    | nil => cases fuel₂ <;> rfl
    | cons c rest =>
      cases fuel₂ with
      | zero => simp at h2
      | succ f₂ =>
        simp only [filterCovAux]
        have hcp := covPattern_length_pos
        by_cases hp : covPattern <+: (c :: rest)
        · rw [if_pos hp, if_pos hp]
          apply ih
          · simp only [List.length_drop, List.length_cons]
            simp only [List.length_cons] at h1
            omega
          · simp only [List.length_drop, List.length_cons]
            simp only [List.length_cons] at h2
            omega
        · rw [if_neg hp, if_neg hp]
          have h1' : rest.length ≤ f := by simp only [List.length_cons] at h1; omega
          have h2' : rest.length ≤ f₂ := by simp only [List.length_cons] at h2; omega
          rw [ih f₂ rest h1' h2']

theorem filter_coverage_message_nil : filter_coverage_message [] = [] := rfl

/-- Unfolding lemma: when the pattern starts the input, the whole pattern is
skipped. -/
theorem filter_coverage_message_match (s : List Char) (h : covPattern <+: s) :
    filter_coverage_message s =
      filter_coverage_message (s.drop covPattern.length) := by
  cases s with
  | nil =>
    have : covPattern = [] := List.prefix_nil.mp h
    simp [covPattern, COVERAGE_MESSAGE] at this
  | cons c rest =>
    show filterCovAux (c :: rest).length (c :: rest) = _
    simp only [List.length_cons, filterCovAux, if_pos h]
    have hcp := covPattern_length_pos
    apply filterCovAux_fuel_eq
    · simp only [List.length_drop, List.length_cons]; omega
    · exact Nat.le_refl _

/-- Unfolding lemma: when the pattern does not start the input, the first
character is kept and scanning continues. -/
theorem filter_coverage_message_nomatch (c : Char) (rest : List Char)
    (h : ¬ covPattern <+: (c :: rest)) :
    filter_coverage_message (c :: rest) = c :: filter_coverage_message rest := by
  show filterCovAux (c :: rest).length (c :: rest) = _
  simp only [List.length_cons, filterCovAux, if_neg h]
  rfl

/-- Embedding of the line filter inside process_generated_output
(process_output.py lines 49-50):
[line for line in output if line != COVERAGE_MESSAGE]. -/
def process_lines_filter (output : List (List Char)) : List (List Char) :=
  output.filter (fun line => line != COVERAGE_MESSAGE)

/-- If the pattern does not occur anywhere in the input, the scan keeps every
character: filter_coverage_message is the identity there. -/
theorem filter_coverage_message_id_of_marker_free :
    ∀ s : List Char, ¬ covPattern <:+: s → filter_coverage_message s = s := by
  intro s
  induction s with
  | nil => intro _; rfl
  | cons c rest ih =>
    intro h
    have hp : ¬ covPattern <+: (c :: rest) := fun hp => h hp.isInfix
    rw [filter_coverage_message_nomatch c rest hp]
    rw [ih (fun hi => h (List.infix_cons hi))]

/-- Scanning a string that starts with the pattern removes that pattern. -/
theorem filter_coverage_message_pattern_append (s : List Char) :
    filter_coverage_message (covPattern ++ s) = filter_coverage_message s := by
  rw [filter_coverage_message_match (covPattern ++ s) (List.prefix_append _ _)]
  rw [List.drop_left]

/-- The pattern has no nonempty proper border: no proper nonempty prefix of it
is also a suffix.  (The marker line contains no newline, and the pattern ends
in one, so no self-overlap is possible.)  Checked by computation. -/
theorem covPattern_take_ne_drop :
    ∀ k, k < covPattern.length → 0 < k →
      covPattern.take k ≠ covPattern.drop (covPattern.length - k) := by
  decide

/-- A list that is both a prefix and a suffix of the pattern is trivial. -/
theorem covPattern_border_trivial (t : List Char)
    (hpre : t <+: covPattern) (hsuf : t <:+ covPattern) :
    t = [] ∨ t = covPattern := by
  rcases Nat.lt_trichotomy t.length covPattern.length with hlt | heq | hgt
  · rcases Nat.eq_zero_or_pos t.length with hz | hpos
    · exact Or.inl (List.eq_nil_of_length_eq_zero hz)
    · exfalso
      apply covPattern_take_ne_drop t.length hlt hpos
      rw [← List.prefix_iff_eq_take.mp hpre, ← List.suffix_iff_eq_drop.mp hsuf]
  · right
    have := List.prefix_iff_eq_take.mp hpre
    rw [this, heq, List.take_length]
  · exfalso
    exact Nat.not_lt.mpr (List.IsPrefix.length_le hpre) hgt

/-- If A is nonempty and does not contain the pattern, the pattern cannot
start at the very beginning of A ++ pattern ++ B: a match there would force a
nonempty proper border of the pattern. -/
theorem covPattern_no_overlap (A B : List Char) (hA : A ≠ [])
    (h : ¬ covPattern <:+: A) :
    ¬ covPattern <+: A ++ (covPattern ++ B) := by
  intro hp
  rcases le_or_lt covPattern.length A.length with h1 | h2
  · exact h (List.prefix_of_prefix_length_le hp (List.prefix_append _ _) h1).isInfix
  · obtain ⟨u, hu⟩ := hp
    set t := covPattern.drop A.length with ht
    have htsuf : t <:+ covPattern := List.drop_suffix _ _
    have htlen : t.length = covPattern.length - A.length := by
      rw [ht, List.length_drop]
    have hAlen : 0 < A.length := List.length_pos.mpr hA
    have hteq : t ++ u = covPattern ++ B := by
      have := congrArg (List.drop A.length) hu
      rwa [List.drop_append_of_le_length (Nat.le_of_lt h2), List.drop_left] at this
    have htpre : t <+: covPattern := by
      apply List.prefix_of_prefix_length_le ⟨u, hteq⟩ (List.prefix_append _ _)
      omega
    rcases covPattern_border_trivial t htpre htsuf with h0 | hfull
    · have : t.length = 0 := by rw [h0]; rfl
      omega
    · have : t.length = covPattern.length := by rw [hfull]
      omega

/-- Scanning A ++ pattern ++ B where A is pattern-free removes the explicit
pattern, keeps A verbatim, and continues on B. -/
theorem filter_coverage_message_append :
    ∀ A B : List Char, ¬ covPattern <:+: A →
      filter_coverage_message (A ++ (covPattern ++ B)) =
        A ++ filter_coverage_message B := by
  intro A
  induction A with
  | nil =>
    intro B _
    simpa using filter_coverage_message_pattern_append B
  | cons c A' ih =>
    intro B h
    have hnp : ¬ covPattern <+: (c :: (A' ++ (covPattern ++ B))) := by
      have := covPattern_no_overlap (c :: A') B (by simp) h
      simpa using this
    rw [List.cons_append, filter_coverage_message_nomatch _ _ hnp]
    rw [ih B (fun hi => h (List.infix_cons hi))]
    rfl

/-- Specification-side decomposition: a string made of the given chunks with
one occurrence of the pattern (marker line plus line terminator) between each
pair of consecutive chunks. -/
def chunksJoin : List (List Char) → List Char
  | [] => []
  | [c] => c
  | c :: cs => c ++ (covPattern ++ chunksJoin cs)

/-- Claim C1: filter_coverage_message removes every exact occurrence of the
Coverage Marker Line followed by a line terminator, leaving all other content
and ordering unchanged; in particular it is the identity on every string with
zero occurrences of the pattern.  Stated as: (i) identity on pattern-free
strings, and (ii) a string decomposed into pattern-free chunks separated by
pattern occurrences maps to the concatenation of the chunks. -/
theorem filter_coverage_message_removes_all_occurrences :
    (∀ s : List Char, ¬ covPattern <:+: s → filter_coverage_message s = s) ∧
    (∀ cs : List (List Char), (∀ c ∈ cs, ¬ covPattern <:+: c) →
      filter_coverage_message (chunksJoin cs) = cs.flatten) := by
  constructor
  · exact filter_coverage_message_id_of_marker_free
  · intro cs
    induction cs with
    | nil => intro _; rfl
    | cons c cs ih =>
      intro h
      cases cs with
      | nil =>
        simp only [chunksJoin, List.flatten_cons, List.flatten_nil, List.append_nil]
        exact filter_coverage_message_id_of_marker_free c (h c (by simp))
      | cons c' cs' =>
        rw [show chunksJoin (c :: c' :: cs') =
              c ++ (covPattern ++ chunksJoin (c' :: cs')) from rfl]
        rw [filter_coverage_message_append c _ (h c (by simp))]
        rw [ih (fun x hx => h x (by simp [hx]))]
        simp [List.flatten_cons]

/-- Witness for C1 at a concrete input: two marker-free chunks separated by
one pattern occurrence collapse to their concatenation. -/
theorem filter_coverage_message_removes_all_occurrences_witness :
    filter_coverage_message (chunksJoin [("foo\n").data, ("baz\n").data]) =
      List.flatten [("foo\n").data, ("baz\n").data] :=
  filter_coverage_message_removes_all_occurrences.2 _ (by decide)

/-- Claim C2 counterexample: filter_coverage_message is not idempotent.
Removing the middle pattern occurrence from the input
w + MARKER + newline + (MARKER minus its first character) + newline
glues the leading w onto the tail and recreates a pattern occurrence, which a
second application then removes. -/
theorem filter_coverage_message_not_idempotent :
    filter_coverage_message (filter_coverage_message
        (( 'w' :: covPattern) ++ covPattern.drop 1)) ≠
      filter_coverage_message (( 'w' :: covPattern) ++ covPattern.drop 1) := by
  decide

/-- Claim C2 amended: filter_coverage_message is idempotent on every input
whose image under one application is free of the pattern (occurrences do not
recombine); the second application is then the identity. -/
theorem filter_coverage_message_idempotent_of_result_free :
    ∀ s : List Char, ¬ covPattern <:+: filter_coverage_message s →
      filter_coverage_message (filter_coverage_message s) =
        filter_coverage_message s :=
  fun _ h => filter_coverage_message_id_of_marker_free _ h

/-- Witness for the amended C2 at a concrete input. -/
theorem filter_coverage_message_idempotent_of_result_free_witness :
    filter_coverage_message (filter_coverage_message ( 'a' :: covPattern)) =
      filter_coverage_message ( 'a' :: covPattern) :=
  filter_coverage_message_idempotent_of_result_free _ (by decide)

/-- Claim C3 counterexample: with A equal to the pattern itself and B empty,
filter_coverage_message (A ++ pattern ++ B) is the empty string, not A ++ B:
the occurrences inside A are removed as well. -/
theorem filter_coverage_message_single_removal_fails :
    filter_coverage_message (covPattern ++ covPattern ++ ([] : List Char)) ≠
      covPattern ++ ([] : List Char) := by
  decide

/-- Claim C3 amended: for all strings A and B that themselves contain no
occurrence of the pattern, filtering A ++ pattern ++ B yields exactly
A ++ B. -/
theorem filter_coverage_message_single_removal :
    ∀ A B : List Char, ¬ covPattern <:+: A → ¬ covPattern <:+: B →
      filter_coverage_message (A ++ covPattern ++ B) = A ++ B := by
  intro A B hA hB
  rw [List.append_assoc, filter_coverage_message_append A B hA,
      filter_coverage_message_id_of_marker_free B hB]

/-- Witness for the amended C3 at a concrete input. -/
theorem filter_coverage_message_single_removal_witness :
    filter_coverage_message (("x").data ++ covPattern ++ ("y").data) =
      ("x").data ++ ("y").data :=
  filter_coverage_message_single_removal _ _ (by decide) (by decide)

/-- Claim C9: only pattern occurrences followed by a line terminator are
removed: a string that ends with the bare Coverage Marker Line (no trailing
newline) and contains no marker-plus-newline occurrence is returned
unchanged. -/
theorem filter_coverage_message_keeps_trailing_marker :
    ∀ s : List Char, COVERAGE_MESSAGE <:+ s → ¬ covPattern <:+: s →
      filter_coverage_message s = s :=
  fun s _ h => filter_coverage_message_id_of_marker_free s h

/-- Witness for C9: a string ending in the bare marker line is kept. -/
theorem filter_coverage_message_keeps_trailing_marker_witness :
    filter_coverage_message (("foo\n").data ++ COVERAGE_MESSAGE) =
      ("foo\n").data ++ COVERAGE_MESSAGE :=
  filter_coverage_message_keeps_trailing_marker _
    ⟨("foo\n").data, rfl⟩ (by decide)

/-- Claim C4: the line filter of process_generated_output removes exactly the
elements equal to the Coverage Marker Line, preserving the relative order of
the rest: the result is a sublist of the input (order preserved), the marker
never survives, every other element keeps its multiplicity, and the two
scenario examples hold. -/
theorem process_lines_filter_removes_marker_lines :
    process_lines_filter [] = [] ∧
    process_lines_filter [("a").data, COVERAGE_MESSAGE, ("b").data] =
      [("a").data, ("b").data] ∧
    (∀ xs : List (List Char), (process_lines_filter xs).Sublist xs) ∧
    (∀ xs : List (List Char), COVERAGE_MESSAGE ∉ process_lines_filter xs) ∧
    (∀ xs : List (List Char), ∀ l, l ≠ COVERAGE_MESSAGE →
      (process_lines_filter xs).count l = xs.count l) := by
  refine ⟨rfl, by decide, fun xs => List.filter_sublist xs, fun xs h => ?_, ?_⟩
  · have := List.of_mem_filter h
    simp at this
  · intro xs l hl
    exact List.count_filter (by simpa using hl)

/-- Witness for C4 at a concrete input, discharging the inner hypothesis. -/
theorem process_lines_filter_removes_marker_lines_witness :
    (process_lines_filter [("a").data]).count (("a").data) =
      [("a").data].count (("a").data) :=
  process_lines_filter_removes_marker_lines.2.2.2.2 _ _ (by decide)

/-- Python str.isdigit restricted to the decimal digits actually exercised by
the harness (the scenario values are ASCII): nonempty and all characters
decimal digits. -/
def pyIsdigit (s : List Char) : Bool :=
  !s.isEmpty && s.all (fun c => c.isDigit)

/-- Python str.isalpha restricted to ASCII letters as exercised by the
harness: nonempty and all characters letters. -/
def pyIsalpha (s : List Char) : Bool :=
  !s.isEmpty && s.all (fun c => c.isAlpha)

/-- The double-quote character, spelled by code point. -/
def quoteChar : Char := Char.ofNat 34

/-- Embedding of parse_max_age (notification_service.py lines 29-50).
The Python code strips every double quote, splits the result on single
spaces, and accepts when that yields exactly two items, the first all digits
and the second all letters; on success it returns the original argument, and
on any other shape the assertion aborts (modelled as none). -/
def parse_max_age (max_age : List Char) : Option (List Char) :=
  let items := (max_age.filter (fun c => c != quoteChar)).splitOn ' '
  match items with
  | [a, b] => if pyIsdigit a && pyIsalpha b then some max_age else none
  | _ => none

/-- The acceptance condition exactly as the claim words it, applied to a raw
string: it is exactly two space-separated tokens, the first entirely digits
and the second entirely alphabetic. -/
def specTwoTokens (s : List Char) : Bool :=
  match s.splitOn ' ' with
  | [a, b] => pyIsdigit a && pyIsalpha b
  | _ => false

/-- Claim C5 counterexample: acceptance is not equivalent to the raw input
being two digit/alpha tokens.  The input 1"2 days is accepted (the code
strips double quotes before splitting) although its raw first token 1"2 is
not entirely digits. -/
theorem parse_max_age_not_raw_token_check :
    ¬ (((parse_max_age (( '1' :: quoteChar :: ('2' :: ' ' :: ('d' :: []))))).isSome)
        = true ↔
       specTwoTokens (( '1' :: quoteChar :: ('2' :: ' ' :: ('d' :: [])))) = true) := by
  decide

/-- Claim C5 amended: parse_max_age returns its argument unchanged exactly
when, after removing every double-quote character, the input is exactly two
space-separated tokens with the first entirely digits and the second entirely
alphabetic; every other input is rejected. -/
theorem parse_max_age_accepts_iff :
    ∀ s : List Char,
      ((parse_max_age s).isSome = true ↔
        specTwoTokens (s.filter (fun c => c != quoteChar)) = true) ∧
      (∀ r, parse_max_age s = some r → r = s) := by
  intro s
  unfold parse_max_age specTwoTokens
  constructor
  · cases h : (s.filter (fun c => c != quoteChar)).splitOn ' ' with
    | nil => simp
    | cons a t =>
      cases t with
      | nil => simp
      | cons b t' =>
        cases t' with
        | nil =>
          by_cases hd : pyIsdigit a && pyIsalpha b <;> simp [hd]
        | cons c t'' => simp
  · intro r hr
    cases h : (s.filter (fun c => c != quoteChar)).splitOn ' ' with
    | nil => simp [h] at hr
    | cons a t =>
      cases t with
      | nil => simp [h] at hr
      | cons b t' =>
        cases t' with
        | nil =>
          simp only [h] at hr
          by_cases hd : pyIsdigit a && pyIsalpha b
          · rw [if_pos hd] at hr
            exact (Option.some_inj.mp hr).symm
          · rw [if_neg hd] at hr
            exact absurd hr (by simp)
        | cons c t'' => simp [h] at hr

/-- Witness for the amended C5 at a concrete accepted input. -/
theorem parse_max_age_accepts_iff_witness :
    ("1 d").data = ("1 d").data ∧
      (parse_max_age (("1 d").data)).isSome = true :=
  ⟨(parse_max_age_accepts_iff (("1 d").data)).2 (("1 d").data) (by decide),
   (parse_max_age_accepts_iff (("1 d").data)).1.mpr (by decide)⟩

/-- Embedding of the return-code assertion of
process_ccx_notification_service_output (notification_service.py lines
69-72): assert out.returncode == 0 or out.returncode in return_codes, with
the observed code carried in the assertion message (modelled as the error
value). -/
def notification_service_rc_check (returncode : Int) (return_codes : List Int) :
    Except Int Unit :=
  if returncode = 0 ∨ returncode ∈ return_codes then Except.ok () else
    Except.error returncode

/-- Claim C6: the harness accepts exit code 0 unconditionally, accepts every
code in the caller-supplied set of acceptable non-zero codes, and for every
code outside both the check fails with an assertion carrying the observed
code. -/
theorem notification_service_rc_check_spec :
    ∀ (rc : Int) (codes : List Int),
      (rc = 0 → notification_service_rc_check rc codes = Except.ok ()) ∧
      (rc ∈ codes → notification_service_rc_check rc codes = Except.ok ()) ∧
      (rc ≠ 0 → rc ∉ codes →
        notification_service_rc_check rc codes = Except.error rc) := by
  intro rc codes
  refine ⟨fun h => ?_, fun h => ?_, fun h1 h2 => ?_⟩
  · simp [notification_service_rc_check, h]
  · simp [notification_service_rc_check, h]
  · simp only [notification_service_rc_check]
    rw [if_neg]
    rintro (h | h)
    · exact h1 h
    · exact h2 h

/-- Witness for C6: with the acceptable set 4, 5, 9 of the harness, exit
code 5 is accepted and exit code 7 fails carrying 7. -/
theorem notification_service_rc_check_spec_witness :
    notification_service_rc_check 5 [4, 5, 9] = Except.ok () ∧
      notification_service_rc_check 7 [4, 5, 9] = Except.error 7 :=
  ⟨(notification_service_rc_check_spec 5 [4, 5, 9]).2.1 (by decide),
   (notification_service_rc_check_spec 7 [4, 5, 9]).2.2 (by decide) (by decide)⟩

/-- Result of one check_logs step: success, a failed assertion on the log
substring, or the explicit ValueError raised for a malformed contains flag
(carrying the offending value). -/
inductive LogCheckResult where
  | ok : LogCheckResult
  | assertionError : List Char → LogCheckResult
  | valueError : List Char → LogCheckResult
deriving DecidableEq

/-- Embedding of check_logs (notification_service.py lines 498-516): the
decoded output is scanned row by row; a row with contains yes asserts the log
substring is present, a row with contains no asserts it is absent, and any
other contains value raises ValueError naming that value.  The first failure
aborts the step. -/
def check_logs (output : List Char) :
    List (List Char × List Char) → LogCheckResult
  | [] => LogCheckResult.ok
  | (log, contains) :: rows =>
    if contains = ("yes").data then
      if log <:+: output then check_logs output rows
      else LogCheckResult.assertionError log
    else if contains = ("no").data then
      if log <:+: output then LogCheckResult.assertionError log
      else check_logs output rows
    else LogCheckResult.valueError contains

/-- Claim C7: a check_logs row whose contains value is neither yes nor no
raises ValueError naming the offending value (never an assertion), a yes row
succeeds exactly when the log substring occurs in the output, and a no row
succeeds exactly when it does not. -/
theorem check_logs_contains_flag_spec :
    ∀ (output log v : List Char) (rows : List (List Char × List Char)),
      (v ≠ ("yes").data → v ≠ ("no").data →
        check_logs output ((log, v) :: rows) = LogCheckResult.valueError v) ∧
      (check_logs output [(log, ("yes").data)] = LogCheckResult.ok ↔
        log <:+: output) ∧
      (check_logs output [(log, ("no").data)] = LogCheckResult.ok ↔
        ¬ log <:+: output) := by
  intro output log v rows
  refine ⟨fun h1 h2 => ?_, ?_, ?_⟩
  · simp [check_logs, h1, h2]
  · by_cases h : log <:+: output <;> simp [check_logs, h]
  · by_cases h : log <:+: output <;> simp [check_logs, h]

/-- Witness for C7: a malformed contains flag maybe raises ValueError naming
it, and a yes row on a present substring succeeds. -/
theorem check_logs_contains_flag_spec_witness :
    check_logs (("hello").data) [((("ell").data), (("maybe").data))] =
        LogCheckResult.valueError (("maybe").data) ∧
      check_logs (("hello").data) [((("ell").data), (("yes").data))] =
        LogCheckResult.ok :=
  ⟨(check_logs_contains_flag_spec (("hello").data) (("ell").data)
      (("maybe").data) []).1 (by decide) (by decide),
   (check_logs_contains_flag_spec (("hello").data) (("ell").data)
      (("maybe").data) []).2.1.mpr (by decide)⟩

/-- Python truthiness of the return_code parameter of
process_generated_output: None and 0 are falsy, any other integer truthy. -/
def pyTruthyOptInt : Option Int → Bool
  | none => false
  | some n => n != 0

/-- Embedding of the return-code check of process_generated_output
(process_output.py lines 39-44): if return_code: assert out.returncode == 0
or out.returncode == return_code.  True means the assertion passes (or is
skipped); false means the step aborts. -/
def process_generated_output_rc_check (returncode : Int)
    (return_code : Option Int) : Bool :=
  if pyTruthyOptInt return_code then
    returncode == 0 || some returncode == return_code
  else true

/-- Claim C10: the return-code assertion of process_generated_output runs
only when the supplied return_code is truthy: with None or 0 every observed
exit code is accepted, and with a non-zero expected code the observed code
must be 0 or that code. -/
theorem process_generated_output_rc_check_spec :
    ∀ rc : Int,
      process_generated_output_rc_check rc none = true ∧
      process_generated_output_rc_check rc (some 0) = true ∧
      (∀ e : Int, e ≠ 0 →
        (process_generated_output_rc_check rc (some e) = true ↔
          (rc = 0 ∨ rc = e))) := by
  intro rc
  refine ⟨rfl, by simp [process_generated_output_rc_check, pyTruthyOptInt], ?_⟩
  intro e he
  simp [process_generated_output_rc_check, pyTruthyOptInt, he]

/-- Witness for C10: with expected code 2, observed 7 is rejected and
observed 0 is accepted; with None, observed 7 is accepted. -/
theorem process_generated_output_rc_check_spec_witness :
    process_generated_output_rc_check 7 none = true ∧
      ¬ (process_generated_output_rc_check 7 (some 2) = true) :=
  ⟨(process_generated_output_rc_check_spec 7).1,
   fun h => by
     have := ((process_generated_output_rc_check_spec 7).2.2 2 (by decide)).mp h
     exact absurd this (by decide)⟩

/-- A Unicode scalar value: in range and not a surrogate. -/
def ValidScalar (v : Nat) : Prop :=
  v < 0x110000 ∧ (v < 0xD800 ∨ 0xE000 ≤ v)

instance (v : Nat) : Decidable (ValidScalar v) := by
  unfold ValidScalar
  infer_instance

/-- UTF-8 encoding of one scalar value as a byte sequence. -/
def utf8EncodeScalar (v : Nat) : List Nat :=
  if v < 0x80 then [v]
  else if v < 0x800 then [0xC0 + v / 0x40, 0x80 + v % 0x40]
  else if v < 0x10000 then
    [0xE0 + v / 0x1000, 0x80 + v / 0x40 % 0x40, 0x80 + v % 0x40]
  else
    [0xF0 + v / 0x40000, 0x80 + v / 0x1000 % 0x40, 0x80 + v / 0x40 % 0x40,
     0x80 + v % 0x40]

/-- UTF-8 encoding of a sequence of scalar values. -/
def utf8Encode (s : List Nat) : List Nat :=
  (s.map utf8EncodeScalar).flatten

/-- Strict UTF-8 decoding of one scalar value from the front of a byte
sequence, exactly as Python bytes.decode with the utf-8 codec accepts it:
continuation bytes and overlong lead bytes are rejected as lead bytes,
continuation bytes must lie in 0x80..0xBF, overlong encodings, surrogates
and values above 0x10FFFF are rejected. -/
def utf8DecodeOne : List Nat → Option (Nat × List Nat)
  | [] => none
  | b :: bs =>
    if b < 0x80 then some (b, bs)
    else if b < 0xC2 then none
    else if b < 0xE0 then
      match bs with
      | b1 :: bs1 =>
        if 0x80 ≤ b1 ∧ b1 < 0xC0 then
          some ((b - 0xC0) * 0x40 + (b1 - 0x80), bs1)
        else none
      | [] => none
    else if b < 0xF0 then
      match bs with
      | b1 :: b2 :: bs2 =>
        if 0x80 ≤ b1 ∧ b1 < 0xC0 ∧ 0x80 ≤ b2 ∧ b2 < 0xC0 then
          if 0x800 ≤ (b - 0xE0) * 0x1000 + (b1 - 0x80) * 0x40 + (b2 - 0x80) ∧
              ((b - 0xE0) * 0x1000 + (b1 - 0x80) * 0x40 + (b2 - 0x80) < 0xD800 ∨
               0xE000 ≤ (b - 0xE0) * 0x1000 + (b1 - 0x80) * 0x40 + (b2 - 0x80)) then
            some ((b - 0xE0) * 0x1000 + (b1 - 0x80) * 0x40 + (b2 - 0x80), bs2)
          else none
        else none
      | _ => none
    else if b < 0xF5 then
      match bs with
      | b1 :: b2 :: b3 :: bs3 =>
        if 0x80 ≤ b1 ∧ b1 < 0xC0 ∧ 0x80 ≤ b2 ∧ b2 < 0xC0 ∧
            0x80 ≤ b3 ∧ b3 < 0xC0 then
          if 0x10000 ≤ (b - 0xF0) * 0x40000 + (b1 - 0x80) * 0x1000 +
                (b2 - 0x80) * 0x40 + (b3 - 0x80) ∧
              (b - 0xF0) * 0x40000 + (b1 - 0x80) * 0x1000 +
                (b2 - 0x80) * 0x40 + (b3 - 0x80) < 0x110000 then
            some ((b - 0xF0) * 0x40000 + (b1 - 0x80) * 0x1000 +
                (b2 - 0x80) * 0x40 + (b3 - 0x80), bs3)
          else none
        else none
      | _ => none
    else none

/-- Recursion worker for utf8Decode; the fuel argument only makes the
recursion structural and is always at least the number of bytes left. -/
def utf8DecodeAux : Nat → List Nat → Option (List Nat)
  | _, [] => some []
  | 0, _ :: _ => none
  | fuel + 1, b :: bs =>
    match utf8DecodeOne (b :: bs) with
    | none => none
    | some (v, rest) => (utf8DecodeAux fuel rest).map (fun t => v :: t)

/-- Strict UTF-8 decoding of a whole byte sequence into scalar values;
none models the UnicodeDecodeError raised by Python for invalid input. -/
def utf8Decode (bs : List Nat) : Option (List Nat) :=
  utf8DecodeAux bs.length bs

/-- Embedding of the output-decoding step shared by process_generated_output
(process_output.py lines 46-47) and process_ccx_notification_service_output
(notification_service.py lines 73-74): decode the captured bytes as UTF-8
and split the text into lines on the newline character (code point 10). -/
def decode_and_split_lines (stdout : List Nat) : Option (List (List Nat)) :=
  (utf8Decode stdout).map (fun text => text.splitOn 10)

theorem utf8DecodeOne_encodeScalar (v : Nat) (h : ValidScalar v)
    (rest : List Nat) :
    utf8DecodeOne (utf8EncodeScalar v ++ rest) = some (v, rest) := by
  obtain ⟨hlt, hs⟩ := h
  by_cases h1 : v < 0x80
  · have he : utf8EncodeScalar v = [v] := by
      unfold utf8EncodeScalar; rw [if_pos h1]
    rw [he, List.cons_append, List.nil_append]
    simp only [utf8DecodeOne, if_pos h1]
  · by_cases h2 : v < 0x800
    · have he : utf8EncodeScalar v = [0xC0 + v / 0x40, 0x80 + v % 0x40] := by
        unfold utf8EncodeScalar; rw [if_neg h1, if_pos h2]
      rw [he]
      simp only [List.cons_append, List.nil_append]
      have c1 : ¬ (0xC0 + v / 0x40 < 0x80) := by omega
      have c2 : ¬ (0xC0 + v / 0x40 < 0xC2) := by omega
      have c3 : 0xC0 + v / 0x40 < 0xE0 := by omega
      have c4 : 0x80 ≤ 0x80 + v % 0x40 ∧ 0x80 + v % 0x40 < 0xC0 := by omega
      simp only [utf8DecodeOne, c1, c2, c3, c4, if_true, if_false, ite_true,
        ite_false, and_self, Option.some.injEq, Prod.mk.injEq]
      exact ⟨by omega, trivial⟩
    · by_cases h3 : v < 0x10000
      · have he : utf8EncodeScalar v =
            [0xE0 + v / 0x1000, 0x80 + v / 0x40 % 0x40, 0x80 + v % 0x40] := by
          unfold utf8EncodeScalar; rw [if_neg h1, if_neg h2, if_pos h3]
        rw [he]
        simp only [List.cons_append, List.nil_append]
        have c1 : ¬ (0xE0 + v / 0x1000 < 0x80) := by omega
        have c2 : ¬ (0xE0 + v / 0x1000 < 0xC2) := by omega
        have c3 : ¬ (0xE0 + v / 0x1000 < 0xE0) := by omega
        have c4 : 0xE0 + v / 0x1000 < 0xF0 := by omega
        have c5 : 0x80 ≤ 0x80 + v / 0x40 % 0x40 ∧ 0x80 + v / 0x40 % 0x40 < 0xC0 ∧
            0x80 ≤ 0x80 + v % 0x40 ∧ 0x80 + v % 0x40 < 0xC0 := by omega
        have hv : (0xE0 + v / 0x1000 - 0xE0) * 0x1000 +
            (0x80 + v / 0x40 % 0x40 - 0x80) * 0x40 + (0x80 + v % 0x40 - 0x80)
              = v := by omega
        have c6 : 0x800 ≤ v ∧ (v < 0xD800 ∨ 0xE000 ≤ v) := by omega
        simp only [utf8DecodeOne, c1, c2, c3, c4, c5, if_true, if_false,
          ite_true, ite_false, hv, c6, and_self, Option.some.injEq,
          Prod.mk.injEq]
      · have he : utf8EncodeScalar v =
            [0xF0 + v / 0x40000, 0x80 + v / 0x1000 % 0x40,
             0x80 + v / 0x40 % 0x40, 0x80 + v % 0x40] := by
          unfold utf8EncodeScalar; rw [if_neg h1, if_neg h2, if_neg h3]
        rw [he]
        simp only [List.cons_append, List.nil_append]
        have c1 : ¬ (0xF0 + v / 0x40000 < 0x80) := by omega
        have c2 : ¬ (0xF0 + v / 0x40000 < 0xC2) := by omega
        have c3 : ¬ (0xF0 + v / 0x40000 < 0xE0) := by omega
        have c4 : ¬ (0xF0 + v / 0x40000 < 0xF0) := by omega
        have c5 : 0xF0 + v / 0x40000 < 0xF5 := by omega
        have c6 : 0x80 ≤ 0x80 + v / 0x1000 % 0x40 ∧
            0x80 + v / 0x1000 % 0x40 < 0xC0 ∧
            0x80 ≤ 0x80 + v / 0x40 % 0x40 ∧ 0x80 + v / 0x40 % 0x40 < 0xC0 ∧
            0x80 ≤ 0x80 + v % 0x40 ∧ 0x80 + v % 0x40 < 0xC0 := by omega
        have hv : (0xF0 + v / 0x40000 - 0xF0) * 0x40000 +
            (0x80 + v / 0x1000 % 0x40 - 0x80) * 0x1000 +
            (0x80 + v / 0x40 % 0x40 - 0x80) * 0x40 +
            (0x80 + v % 0x40 - 0x80) = v := by omega
        have c7 : 0x10000 ≤ v ∧ v < 0x110000 := by omega
        simp only [utf8DecodeOne, c1, c2, c3, c4, c5, c6, if_true, if_false,
          ite_true, ite_false, hv, c7, and_self, Option.some.injEq,
          Prod.mk.injEq]

theorem utf8EncodeScalar_ne_nil (v : Nat) : utf8EncodeScalar v ≠ [] := by
  unfold utf8EncodeScalar
  by_cases h1 : v < 0x80
  · rw [if_pos h1]; simp
  · rw [if_neg h1]
    by_cases h2 : v < 0x800
    · rw [if_pos h2]; simp
    · rw [if_neg h2]
      by_cases h3 : v < 0x10000
      · rw [if_pos h3]; simp
      · rw [if_neg h3]; simp

theorem utf8DecodeAux_encode :
    ∀ (s : List Nat), (∀ v ∈ s, ValidScalar v) →
      ∀ fuel, (utf8Encode s).length ≤ fuel →
        utf8DecodeAux fuel (utf8Encode s) = some s := by
  intro s
  induction s with
  | nil =>
    intro _ fuel _
    show utf8DecodeAux fuel [] = some []
    cases fuel <;> rfl
  | cons v s ih =>
    intro h fuel hfuel
    have hv : ValidScalar v := h v (by simp)
    have hs : ∀ x ∈ s, ValidScalar x := fun x hx => h x (by simp [hx])
    have henc : utf8Encode (v :: s) = utf8EncodeScalar v ++ utf8Encode s := by
      simp [utf8Encode]
    obtain ⟨b, t, hbt⟩ := List.exists_cons_of_ne_nil (utf8EncodeScalar_ne_nil v)
    have hcons : utf8Encode (v :: s) = b :: (t ++ utf8Encode s) := by
      rw [henc, hbt, List.cons_append]
    rw [hcons] at hfuel ⊢
    cases fuel with
    | zero => simp at hfuel
    | succ f =>
      have hdec := utf8DecodeOne_encodeScalar v hv (utf8Encode s)
      rw [hbt, List.cons_append] at hdec
      simp only [utf8DecodeAux, hdec]
      have hlen : (utf8Encode s).length ≤ f := by
        simp only [List.length_cons, List.length_append] at hfuel
        omega
      rw [ih hs f hlen]
      rfl

/-- Claim C8: the harness decodes the captured byte payload as UTF-8 and
splits the resulting text into lines on the newline character before any
line-based comparison: for every sequence of Unicode scalar values, feeding
its UTF-8 encoding to the decoding step yields exactly that text split on
newlines. -/
theorem decode_and_split_lines_utf8 :
    ∀ text : List Nat, (∀ v ∈ text, ValidScalar v) →
      decode_and_split_lines (utf8Encode text) = some (text.splitOn 10) := by
  intro text h
  unfold decode_and_split_lines utf8Decode
  rw [utf8DecodeAux_encode text h _ (Nat.le_refl _)]
  rfl

/-- Witness for C8 at a concrete payload: the bytes of a newline b (with a
two-byte non-ASCII character) decode and split into two lines. -/
theorem decode_and_split_lines_utf8_witness :
    decode_and_split_lines (utf8Encode [97, 233, 10, 98]) =
      some (([97, 233, 10, 98] : List Nat).splitOn 10) :=
  decode_and_split_lines_utf8 [97, 233, 10, 98] (by decide)
